import Mathlib

/-!
Verification development for the `aimusic` music recommender
(`src/music_recommender.py`, class `MusicRecommender`).

The shallow embedding below translates the recommender's pure logic:
  * song rows (`Song`) are the catalog rows (the pandas DataFrame columns
    actually read by the recommender);
  * the standardized feature matrix and its per-row Euclidean norms are
    explicit arguments (`mat`, `norms`); the square-root values produced by
    sklearn are irrational in general, so norms enter as parameters that are
    constrained, where a claim needs it, by `IsNormOf` (`n * n = normSq x`);
  * `np.argsort` is modelled as a stable ascending sort of the index range
    (numpy uses insertion sort for the small arrays appearing in every
    concrete input considered here, and stability fixes tie order);
  * pandas boolean-mask indexing is `List.filter` over row indices;
  * `np.random.choice(n, k, replace=False)` is an explicit sampling function
    `choice : Nat → Nat → List Nat`; numpy's documented contract (a sample of
    `k` distinct indices below `n` whenever `k ≤ n`) is the `ValidChoice`
    predicate;
  * pandas `str.contains` is modelled as plain substring containment (the
    queries appearing in the claims contain no regex metacharacters);
  * `difflib.get_close_matches` is translated from CPython's difflib
    (Ratcliff/Obershelp matching with an empty junk set, faithful for
    queries shorter than the autojunk threshold).
-/

set_option maxRecDepth 40000

namespace MusicRec

/-- One catalog row: the columns of the dataset that
`MusicRecommender` reads (`required_columns` in `__init__`). -/
structure Song where
  track_name : String
  track_artist : String
  track_album_name : String
  track_popularity : Nat
  playlist_genre : String
  duration_ms : Nat
  energy : ℚ
  tempo : ℚ
  danceability : ℚ
  loudness : ℚ
  liveness : ℚ
  valence : ℚ
  speechiness : ℚ
  acousticness : ℚ
deriving DecidableEq

/-- Default row used for (never occurring in practice) out-of-range `iloc`. -/
def dfltSong : Song :=
  { track_name := "", track_artist := "", track_album_name := "",
    track_popularity := 0, playlist_genre := "", duration_ms := 0,
    energy := 0, tempo := 0, danceability := 0, loudness := 0,
    liveness := 0, valence := 0, speechiness := 0, acousticness := 0 }

/-- Record shape of the dicts built by `get_recommendations` for each
recommended song (`track_name`, `artist`, `album`, `similarity_score`,
`popularity`, `genre`, `duration`). -/
structure RecEntry where
  track_name : String
  artist : String
  album : String
  similarity_score : ℚ
  popularity : Nat
  genre : String
  duration : Nat
deriving DecidableEq

/-- Record shape of the dicts built by the mood / random / genre / indian
recommenders and of `input_song` (no similarity score). -/
structure SimpleRec where
  track_name : String
  artist : String
  album : String
  popularity : Nat
  genre : String
  duration : Nat
deriving DecidableEq

/-- `duration` is `int(song['duration_ms']) // 1000` in every dict the
recommender builds. -/
def mkRecEntry (s : Song) (score : ℚ) : RecEntry :=
  { track_name := s.track_name, artist := s.track_artist,
    album := s.track_album_name, similarity_score := score,
    popularity := s.track_popularity, genre := s.playlist_genre,
    duration := s.duration_ms / 1000 }

def mkSimpleRec (s : Song) : SimpleRec :=
  { track_name := s.track_name, artist := s.track_artist,
    album := s.track_album_name, popularity := s.track_popularity,
    genre := s.playlist_genre, duration := s.duration_ms / 1000 }

/-! ### Linear algebra over rationals (sklearn `cosine_similarity`) -/

/-- Dot product of two feature vectors. -/
def dotL (x y : List ℚ) : ℚ := (List.zipWith (· * ·) x y).sum

/-- Squared Euclidean norm. -/
def normSq (x : List ℚ) : ℚ := dotL x x

/-- `nx` is the Euclidean norm of `x` (the square root sklearn computes). -/
def IsNormOf (nx : ℚ) (x : List ℚ) : Prop := 0 ≤ nx ∧ nx * nx = normSq x

/-- sklearn `normalize`: each row is divided by its norm, and zero norms are
replaced by `1` beforehand (`norms[norms == 0.0] = 1.0`). -/
def normalizeRow (x : List ℚ) (nx : ℚ) : List ℚ :=
  x.map (· / (if nx = 0 then 1 else nx))

/-- sklearn `cosine_similarity` of two rows with the given norms:
dot product of the normalized rows. -/
def cosineSim (x y : List ℚ) (nx ny : ℚ) : ℚ :=
  dotL (normalizeRow x nx) (normalizeRow y ny)

/-- `cosine_similarity([self.song_features[song_idx]], self.song_features)[0]`:
the similarity of the query row against every row of the matrix. -/
def simScores (mat : List (List ℚ)) (norms : List ℚ) (qIdx : Nat) : List ℚ :=
  (List.zip mat norms).map
    (fun p => cosineSim (mat.getD qIdx []) p.1 (norms.getD qIdx 0) p.2)

/-! ### `np.argsort` and the top-index slice -/

/-- Ascending comparison on row indices by score, ties by index: the order
realized by a stable ascending sort of the score vector. -/
def rankLE (s : List ℚ) (i j : Nat) : Prop :=
  s.getD i 0 < s.getD j 0 ∨ (s.getD i 0 = s.getD j 0 ∧ i ≤ j)

instance (s : List ℚ) : DecidableRel (rankLE s) := fun i j => by
  unfold rankLE; infer_instance

/-- `np.argsort(similarity_scores)` for SMALL arrays: the indices
`0, …, n-1` sorted ascending by score with ties in ascending index order.
numpy's introsort runs plain insertion sort on arrays of at most 16
elements, where it is stable and equals this order; for longer arrays its
tie order is unspecified, so any statement meant to hold of the program on
every catalog is made over an arbitrary score-ascending order
(`topIndicesOf`) instead of this fixed one. -/
def argsortAsc (s : List ℚ) : List Nat :=
  List.insertionSort (rankLE s) (List.range s.length)

/-- `np.argsort(similarity_scores)[-num_recommendations-1:-1][::-1]`:
drop the last entry of the ascending order, keep the `k` entries before it,
and reverse. -/
def topIndices (s : List ℚ) (k : Nat) : List Nat :=
  let ord := argsortAsc s
  ((ord.take (ord.length - 1)).drop (ord.length - 1 - k)).reverse

/-- The loop over `top_indices`: keep an index when the row's popularity
passes the floor. -/
def keptIndices (songs : List Song) (s : List ℚ) (k minPop : Nat) : List Nat :=
  (topIndices s k).filter (fun i => minPop ≤ (songs.getD i dfltSong).track_popularity)

/-- The `recommendations` list built by `get_recommendations` once the query
row is resolved: the popularity-filtered top indices, each turned into a
record carrying `similarity_scores[idx]`. -/
def recsFromIdx (songs : List Song) (s : List ℚ) (k minPop : Nat) : List RecEntry :=
  (keptIndices songs s k minPop).map
    (fun i => mkRecEntry (songs.getD i dfltSong) (s.getD i 0))

/-- The slice `[-k-1:-1][::-1]` applied to an ARBITRARY argsort order
`ord`: numpy's default `argsort` fixes no tie order for arrays longer than
16 elements, so properties meant to hold of the program for every catalog
are stated over any score-ascending permutation, with `argsortAsc` (the
small-array stable order) as one instance. -/
def topIndicesOf (ord : List Nat) (k : Nat) : List Nat :=
  ((ord.take (ord.length - 1)).drop (ord.length - 1 - k)).reverse

/-- `keptIndices` over an arbitrary argsort order. -/
def keptIndicesOf (songs : List Song) (ord : List Nat) (_s : List ℚ)
    (k minPop : Nat) : List Nat :=
  (topIndicesOf ord k).filter
    (fun i => minPop ≤ (songs.getD i dfltSong).track_popularity)

/-- `recsFromIdx` over an arbitrary argsort order. -/
def recsFromIdxOf (songs : List Song) (ord : List Nat) (s : List ℚ)
    (k minPop : Nat) : List RecEntry :=
  (keptIndicesOf songs ord s k minPop).map
    (fun i => mkRecEntry (songs.getD i dfltSong) (s.getD i 0))

/-! ### String primitives

Python's `str.lower` / `str.strip` are modelled by structurally recursive
functions over the character list; the Lean core equivalents are
extensionally the same on the ASCII data involved but are defined by
well-founded recursion on byte positions, which the kernel cannot
evaluate. -/

/-- Python `str.lower()`. -/
def strLower (s : String) : String := ⟨s.data.map Char.toLower⟩

/-- Python `str.strip()`: drop leading and trailing whitespace. -/
def strTrim (s : String) : String :=
  ⟨((s.data.dropWhile Char.isWhitespace).reverse.dropWhile
      Char.isWhitespace).reverse⟩

/-! ### String containment (pandas `str.contains` on plain text) -/

/-- `needle` occurs as a contiguous substring of `hay` (character lists). -/
def listContains (hay needle : List Char) : Bool :=
  match hay with
  | [] => needle.isEmpty
  | _ :: t => needle.isPrefixOf hay || listContains t needle

/-- `hay` contains `needle` as a substring; pandas
`Series.str.contains(needle)` for metacharacter-free `needle`. -/
def strContains (hay needle : String) : Bool :=
  listContains hay.toList needle.toList

/-! ### `difflib.get_close_matches` (CPython difflib, empty junk set) -/

/-- Length of the common run of equal characters of `a` from position `i`
and `b` from position `j` (fuel-bounded; `fuel ≥ a.length` suffices). -/
def commonRun (a b : List Char) : Nat → Nat → Nat → Nat
  | 0, _, _ => 0
  | fuel + 1, i, j =>
    match a.get? i, b.get? j with
    | some x, some y => if x = y then 1 + commonRun a b fuel (i + 1) (j + 1) else 0
    | _, _ => 0

/-- Common run capped to stay inside the rectangle `[_, ahi) × [_, bhi)`. -/
def cappedRun (a b : List Char) (ahi bhi i j : Nat) : Nat :=
  min (commonRun a b (a.length + 1) i j) (min (ahi - i) (bhi - j))

/-- `SequenceMatcher.find_longest_match` on the rectangle
`[alo, ahi) × [blo, bhi)`: the longest common block, preferring the
lexicographically smallest start `(i, j)` among maximal blocks. -/
def bestBlock (a b : List Char) (alo ahi blo bhi : Nat) : Nat × Nat × Nat :=
  let cands := (List.range' alo (ahi - alo)).flatMap
    (fun i => (List.range' blo (bhi - blo)).map
      (fun j => (i, j, cappedRun a b ahi bhi i j)))
  cands.foldl (fun best c => if best.2.2 < c.2.2 then c else best) (alo, blo, 0)

/-- Total size of the Ratcliff/Obershelp matching blocks
(`SequenceMatcher.get_matching_blocks`), fuel-bounded. -/
def matchSize (a b : List Char) : Nat → Nat → Nat → Nat → Nat → Nat
  | 0, _, _, _, _ => 0
  | fuel + 1, alo, ahi, blo, bhi =>
    let blk := bestBlock a b alo ahi blo bhi
    if blk.2.2 = 0 then 0
    else
      matchSize a b fuel alo blk.1 blo blk.2.1 + blk.2.2 +
        matchSize a b fuel (blk.1 + blk.2.2) ahi (blk.2.1 + blk.2.2) bhi

/-- `SequenceMatcher.ratio()`: `2 * M / T`, and `1` when both sequences are
empty (difflib `_calculate_ratio`). -/
def smRatio (a b : List Char) : ℚ :=
  let t := a.length + b.length
  if t = 0 then 1
  else 2 * (matchSize a b (a.length + b.length + 1) 0 a.length 0 b.length : ℚ) / t

/-- `difflib.get_close_matches(word, possibilities, n, cutoff)`: keep the
possibilities whose ratio against `word` reaches the cutoff, order them by
descending `(ratio, string)` as `heapq.nlargest` does on the score pairs,
and take the best `n`. -/
def getCloseMatches (word : String) (poss : List String) (n : Nat) (cutoff : ℚ) :
    List String :=
  let scored := poss.filterMap (fun x =>
    let r := smRatio x.toList word.toList
    if cutoff ≤ r then some (r, x) else none)
  ((List.insertionSort
      (fun t u : ℚ × String => u.1 < t.1 ∨ (u.1 = t.1 ∧ u.2 ≤ t.2)) scored).take n).map
    (fun p => p.2)

/-! ### Name resolution (`get_recommendations` lines 247–287) -/

/-- Indices of the rows satisfying a predicate, in dataset order
(pandas boolean-mask `.index`). -/
def idxWhere (songs : List Song) (p : Song → Bool) : List Nat :=
  (List.range songs.length).filter (fun i => p (songs.getD i dfltSong))

/-- The matching cascade of `get_recommendations` applied to the normalized
query `q` (already lowercased and stripped): exact title equality, then
title containment, then artist containment, then `get_close_matches` on the
lowercased titles; on total failure, the (up to 3) fuzzy suggestions. -/
def resolveSong (songs : List Song) (q : String) : Sum (List String) Nat :=
  match idxWhere songs (fun s => strLower s.track_name == q) with
  | i :: _ => Sum.inr i
  | [] =>
    match idxWhere songs (fun s => strContains (strLower s.track_name) q) with
    | i :: _ => Sum.inr i
    | [] =>
      match idxWhere songs (fun s => strContains (strLower s.track_artist) q) with
      | i :: _ => Sum.inr i
      | [] =>
        let allSongs := songs.map (fun s => strLower s.track_name)
        let similar := getCloseMatches q allSongs 5 (3/5)
        match similar.find?
            (fun c => !(idxWhere songs (fun s => strLower s.track_name == c)).isEmpty) with
        | some c =>
          match idxWhere songs (fun s => strLower s.track_name == c) with
          | i :: _ => Sum.inr i
          | [] => Sum.inl (similar.take 3)
        | none => Sum.inl (similar.take 3)

/-- Result of `get_recommendations`: either the error dict
(`error: True`, message, suggestions) or the success dict
(`recommendations`, `input_song`). -/
inductive RecResult where
  | err (message : String) (suggestions : List String)
  | ok (recommendations : List RecEntry) (inputSong : SimpleRec)
deriving DecidableEq

/-- `MusicRecommender.get_recommendations(song_name, num_recommendations,
min_popularity)` over a catalog with standardized feature matrix `mat` and
row norms `norms`. -/
def get_recommendations (songs : List Song) (mat : List (List ℚ)) (norms : List ℚ)
    (songName : String) (numRecommendations minPopularity : Nat) : RecResult :=
  let q := strTrim (strLower songName)
  match resolveSong songs q with
  | Sum.inl suggestions =>
    RecResult.err ("Song " ++ q ++ " not found. Did you mean:") suggestions
  | Sum.inr qIdx =>
    let scores := simScores mat norms qIdx
    RecResult.ok (recsFromIdx songs scores numRecommendations minPopularity)
      (mkSimpleRec (songs.getD qIdx dfltSong))

/-! ### Sampling operations -/

/-- Contract of `np.random.choice(n, k, replace=False)`: `k` distinct
indices below `n` (numpy raises when `k > n`, which the callers prevent). -/
def ValidChoice (n k : Nat) (l : List Nat) : Prop :=
  l.length = k ∧ l.Nodup ∧ ∀ i ∈ l, i < n

/-- `'happy': {'valence': (0.7, 1.0), 'energy': (0.6, 1.0)}`. -/
def happyPred (s : Song) : Bool :=
  decide ((7:ℚ)/10 ≤ s.valence ∧ s.valence ≤ 1 ∧
    (6:ℚ)/10 ≤ s.energy ∧ s.energy ≤ 1)

/-- `'sad': {'valence': (0.0, 0.3), 'energy': (0.0, 0.4)}`. -/
def sadPred (s : Song) : Bool :=
  decide ((0:ℚ) ≤ s.valence ∧ s.valence ≤ 3/10 ∧
    (0:ℚ) ≤ s.energy ∧ s.energy ≤ 4/10)

/-- `'energetic': {'energy': (0.8, 1.0), 'tempo': (120, 200)}`. -/
def energeticPred (s : Song) : Bool :=
  decide ((8:ℚ)/10 ≤ s.energy ∧ s.energy ≤ 1 ∧
    (120:ℚ) ≤ s.tempo ∧ s.tempo ≤ 200)

/-- `'calm': {'energy': (0.0, 0.3), 'acousticness': (0.7, 1.0)}`. -/
def calmPred (s : Song) : Bool :=
  decide ((0:ℚ) ≤ s.energy ∧ s.energy ≤ 3/10 ∧
    (7:ℚ)/10 ≤ s.acousticness ∧ s.acousticness ≤ 1)

/-- The mood filter table of `get_mood_based_recommendations`: the row
predicate for a known mood, `none` for an unknown one. -/
def moodFilter (mood : String) : Option (Song → Bool) :=
  if strLower mood = "happy" then some happyPred
  else if strLower mood = "sad" then some sadPred
  else if strLower mood = "energetic" then some energeticPred
  else if strLower mood = "calm" then some calmPred
  else none

/-- `MusicRecommender.get_mood_based_recommendations(mood,
num_recommendations)`: `None` for an unknown mood, `None` again when the
filtered set is empty, otherwise a random sample of the filtered rows. -/
def get_mood_based_recommendations (songs : List Song)
    (choice : Nat → Nat → List Nat) (mood : String) (numRecs : Nat) :
    Option (List SimpleRec) :=
  match moodFilter mood with
  | none => none
  | some p =>
    let filtered := songs.filter p
    if filtered.length = 0 then none
    else
      some ((choice filtered.length (min numRecs filtered.length)).map
        (fun i => mkSimpleRec (filtered.getD i dfltSong)))

/-- The popularity/genre filtering of `get_random_songs`. -/
def randomFiltered (songs : List Song) (minPop : Nat) (genre : Option String) :
    List Song :=
  let f1 := if 0 < minPop then
    songs.filter (fun s => decide (minPop ≤ s.track_popularity)) else songs
  match genre with
  | some g => f1.filter (fun s => strLower s.playlist_genre == strLower g)
  | none => f1

/-- The sampled positions of `get_random_songs`
(`np.random.choice(len(filtered_data), num_songs, replace=False)` after
`num_songs = min(num_songs, len(filtered_data))`). -/
def randomSampleIdxs (songs : List Song) (choice : Nat → Nat → List Nat)
    (numSongs minPop : Nat) (genre : Option String) : List Nat :=
  let f2 := randomFiltered songs minPop genre
  choice f2.length (min numSongs f2.length)

/-- `MusicRecommender.get_random_songs(num_songs, min_popularity, genre)`. -/
def get_random_songs (songs : List Song) (choice : Nat → Nat → List Nat)
    (numSongs minPop : Nat) (genre : Option String) : List SimpleRec :=
  (randomSampleIdxs songs choice numSongs minPop genre).map
    (fun i => mkSimpleRec ((randomFiltered songs minPop genre).getD i dfltSong))

/-- The static keyword table of `get_indian_music_recommendations`. -/
def indianIndicators : List String :=
  ["rahman", "arijit", "shreya", "sonu", "kumar", "khan", "kapoor",
   "bollywood", "tollywood", "kollywood", "mollywood",
   "hindi", "tamil", "telugu", "malayalam", "bengali", "punjabi",
   "kannada", "marathi", "gujarati", "bhojpuri"]

/-- The region-heuristic row mask (`indian_mask`). -/
def isIndianRow (s : Song) : Bool :=
  indianIndicators.any (fun w => strContains (strLower s.track_artist) w) ||
  indianIndicators.any (fun w => strContains (strLower s.track_name) w) ||
  indianIndicators.any (fun w => strContains (strLower s.track_album_name) w) ||
  strContains (strLower s.playlist_genre) "indian"

/-- The rows `get_indian_music_recommendations` samples from: keyword mask
first, then (after the emptiness check) the popularity floor. -/
def indianFiltered (songs : List Song) (minPop : Nat) : List Song :=
  let ind := songs.filter isIndianRow
  if 0 < minPop then ind.filter (fun s => decide (minPop ≤ s.track_popularity)) else ind

/-- `MusicRecommender.get_indian_music_recommendations(num_recommendations,
min_popularity)`. -/
def get_indian_music_recommendations (songs : List Song)
    (choice : Nat → Nat → List Nat) (numRecs minPop : Nat) :
    Option (List SimpleRec) :=
  if (songs.filter isIndianRow).length = 0 then none
  else
    let ind2 := indianFiltered songs minPop
    some ((choice ind2.length (min numRecs ind2.length)).map
      (fun i => mkSimpleRec (ind2.getD i dfltSong)))

/-- Genre values present in the dataset, in first-appearance order
(pandas `.unique()`). -/
def uniqueGenres (songs : List Song) : List String :=
  (songs.map (fun s => s.playlist_genre)).eraseDups

/-- The genre values `get_genre_recommendations` accepts for query `g`
(exact case-insensitive, else substring). -/
def matchingGenres (songs : List Song) (g : String) : List String :=
  let uniq := uniqueGenres songs
  let exactG := uniq.filter (fun x => strLower x == g)
  if exactG.isEmpty then uniq.filter (fun x => strContains (strLower x) g) else exactG

/-- `MusicRecommender.get_genre_recommendations(genre,
num_recommendations)`. -/
def get_genre_recommendations (songs : List Song)
    (choice : Nat → Nat → List Nat) (genre : String) (numRecs : Nat) :
    Option (List SimpleRec) :=
  let g := strLower genre
  let matching := matchingGenres songs g
  if matching.isEmpty then none
  else
    let genreData := songs.filter (fun s => matching.contains s.playlist_genre)
    if genreData.length = 0 then none
    else
      some ((choice genreData.length (min numRecs genreData.length)).map
        (fun i => mkSimpleRec (genreData.getD i dfltSong)))

/-! ### Feature standardization (sklearn `StandardScaler`) -/

/-- Column mean. -/
def colMean (xs : List ℚ) : ℚ := xs.sum / xs.length

/-- Column (population) variance, as `StandardScaler` computes it. -/
def colVar (xs : List ℚ) : ℚ :=
  (xs.map (fun x => (x - colMean xs) ^ 2)).sum / xs.length

/-- sklearn `_handle_zeros_in_scale`: a zero scale (constant column)
becomes `1`. -/
def handleZeroScale (v : ℚ) : ℚ := if v = 0 then 1 else v

/-- `StandardScaler.transform` of one value: `(x - mean) / scale`, where
`scale` is the zero-adjusted standard deviation. -/
def transformVal (mean scale x : ℚ) : ℚ := (x - mean) / scale

/-! ### Ranking orders used in statements -/

/-- Descending comparison with ascending-index tie-break: the order the
spec prescribes for the output ranking. -/
def rankGE (s : List ℚ) (i j : Nat) : Prop :=
  s.getD j 0 < s.getD i 0 ∨ (s.getD i 0 = s.getD j 0 ∧ i ≤ j)

instance (s : List ℚ) : DecidableRel (rankGE s) := fun i j => by
  unfold rankGE; infer_instance

/-- Modelled from the spec (§4.4 `recommend`), for comparison against the
code: rank ALL rows descending by score with ascending-index tie-break,
exclude the query row by its index, filter the popularity floor over the
whole ranking, and return the first `k` survivors. -/
def specRecommend (songs : List Song) (scores : List ℚ) (qIdx k minPop : Nat) :
    List RecEntry :=
  let ranked := List.insertionSort (rankGE scores) (List.range scores.length)
  (((ranked.filter (fun i => i != qIdx)).filter
      (fun i => minPop ≤ (songs.getD i dfltSong).track_popularity)).take k).map
    (fun i => mkRecEntry (songs.getD i dfltSong) (scores.getD i 0))

/-! ### Lemmas on the argsort model -/

lemma rankLE_total (s : List ℚ) : ∀ i j, rankLE s i j ∨ rankLE s j i := by
  intro i j
  rcases lt_trichotomy (s.getD i 0) (s.getD j 0) with h | h | h
  · exact Or.inl (Or.inl h)
  · rcases Nat.le_total i j with hij | hij
    · exact Or.inl (Or.inr ⟨h, hij⟩)
    · exact Or.inr (Or.inr ⟨h.symm, hij⟩)
  · exact Or.inr (Or.inl h)

lemma rankLE_trans (s : List ℚ) :
    ∀ i j k, rankLE s i j → rankLE s j k → rankLE s i k := by
  intro i j k hij hjk
  rcases hij with h1 | ⟨e1, l1⟩
  · rcases hjk with h2 | ⟨e2, _⟩
    · exact Or.inl (h1.trans h2)
    · exact Or.inl (e2 ▸ h1)
  · rcases hjk with h2 | ⟨e2, l2⟩
    · exact Or.inl (e1 ▸ h2)
    · exact Or.inr ⟨e1.trans e2, l1.trans l2⟩

lemma argsortAsc_perm (s : List ℚ) :
    (argsortAsc s).Perm (List.range s.length) :=
  List.perm_insertionSort _ _

lemma sorted_argsortAsc (s : List ℚ) : List.Sorted (rankLE s) (argsortAsc s) := by
  haveI : IsTotal Nat (rankLE s) := ⟨rankLE_total s⟩
  haveI : IsTrans Nat (rankLE s) := ⟨rankLE_trans s⟩
  exact List.sorted_insertionSort _ _

lemma nodup_argsortAsc (s : List ℚ) : (argsortAsc s).Nodup :=
  (argsortAsc_perm s).nodup_iff.mpr (List.nodup_range _)

lemma mem_argsortAsc {s : List ℚ} {i : Nat} (h : i ∈ argsortAsc s) :
    i < s.length :=
  List.mem_range.mp ((argsortAsc_perm s).mem_iff.mp h)

lemma topIndices_sublist_argsort (s : List ℚ) (k : Nat) :
    ∃ l : List Nat, topIndices s k = l.reverse ∧ l.Sublist (argsortAsc s) := by
  refine ⟨((argsortAsc s).take ((argsortAsc s).length - 1)).drop
    ((argsortAsc s).length - 1 - k), rfl, ?_⟩
  exact ((List.drop_sublist _ _).trans (List.take_sublist _ _))

lemma mem_topIndices {s : List ℚ} {k i : Nat} (h : i ∈ topIndices s k) :
    i < s.length := by
  obtain ⟨l, hl, hsub⟩ := topIndices_sublist_argsort s k
  rw [hl, List.mem_reverse] at h
  exact mem_argsortAsc (hsub.subset h)

/-- Whatever tie order an argsort run produced (`ord` need only be
ascending in score), the sliced-and-reversed top indices are descending
in score. -/
lemma topIndicesOf_pairwise {s : List ℚ} {ord : List Nat} (k : Nat)
    (hord : List.Pairwise (fun i j => s.getD i 0 ≤ s.getD j 0) ord) :
    List.Pairwise (fun i j => s.getD j 0 ≤ s.getD i 0) (topIndicesOf ord k) := by
  unfold topIndicesOf
  rw [List.pairwise_reverse]
  exact hord.sublist ((List.drop_sublist _ _).trans (List.take_sublist _ _))

/-- The small-array stable order is in particular score-ascending. -/
lemma argsortAsc_pairwise_le (s : List ℚ) :
    List.Pairwise (fun i j => s.getD i 0 ≤ s.getD j 0) (argsortAsc s) := by
  refine (sorted_argsortAsc s).imp ?_
  intro i j hij
  rcases hij with h | ⟨he, _⟩
  · exact le_of_lt h
  · exact le_of_eq he

lemma topIndices_length_le (s : List ℚ) (k : Nat) :
    (topIndices s k).length ≤ k := by
  unfold topIndices
  have hlen : (argsortAsc s).length = s.length := by
    unfold argsortAsc
    rw [List.length_insertionSort, List.length_range]
  simp only [List.length_reverse, List.length_drop, List.length_take, hlen]
  omega

lemma mem_keptIndices {songs : List Song} {s : List ℚ} {k minPop i : Nat}
    (h : i ∈ keptIndices songs s k minPop) :
    i ∈ topIndices s k ∧ minPop ≤ (songs.getD i dfltSong).track_popularity := by
  unfold keptIndices at h
  have h2 := List.of_mem_filter h
  exact ⟨List.mem_of_mem_filter h, by simpa using h2⟩

/-! ### Lemmas on name resolution -/

lemma idxWhere_head {songs : List Song} {p : Song → Bool} {i : Nat} {t : List Nat}
    (h : idxWhere songs p = i :: t) :
    i < songs.length ∧ p (songs.getD i dfltSong) = true ∧
      ∀ j, j < i → p (songs.getD j dfltSong) = false := by
  have hi : i ∈ idxWhere songs p := by rw [h]; exact List.mem_cons_self _ _
  unfold idxWhere at hi h
  have hmem := List.mem_of_mem_filter hi
  have hpi := List.of_mem_filter hi
  refine ⟨List.mem_range.mp hmem, hpi, ?_⟩
  intro j hj
  by_contra hfalse
  have hpj : p (songs.getD j dfltSong) = true := by
    cases hb : p (songs.getD j dfltSong) with
    | false => exact absurd hb hfalse
    | true => rfl
  have hjlen : j < songs.length := hj.trans (List.mem_range.mp hmem)
  have hjmem : j ∈ (List.range songs.length).filter
      (fun i => p (songs.getD i dfltSong)) :=
    List.mem_filter.mpr ⟨List.mem_range.mpr hjlen, hpj⟩
  rw [h] at hjmem
  have hpw : List.Pairwise (· < ·)
      ((List.range songs.length).filter (fun i => p (songs.getD i dfltSong))) :=
    (List.pairwise_lt_range _).filter _
  rw [h] at hpw
  rcases List.mem_cons.mp hjmem with rfl | hjt
  · exact absurd hj (lt_irrefl _)
  · have := (List.pairwise_cons.mp hpw).1 j hjt
    omega

lemma idxWhere_ne_nil {songs : List Song} {p : Song → Bool} {i : Nat}
    (hi : i < songs.length) (hp : p (songs.getD i dfltSong) = true) :
    idxWhere songs p ≠ [] := by
  intro hnil
  have : i ∈ idxWhere songs p :=
    List.mem_filter.mpr ⟨List.mem_range.mpr hi, hp⟩
  rw [hnil] at this
  exact absurd this (List.not_mem_nil i)

lemma strContains_empty (s : String) : strContains s "" = true := by
  show listContains s.toList [] = true
  induction s.toList with
  | nil => rfl
  | cons c t ih => simp [listContains]

lemma getCloseMatches_subset {word : String} {poss : List String} {n : Nat}
    {cutoff : ℚ} {x : String} (h : x ∈ getCloseMatches word poss n cutoff) :
    x ∈ poss := by
  unfold getCloseMatches at h
  obtain ⟨p, hp, hpx⟩ := List.mem_map.mp h
  have hps : p ∈ List.insertionSort
      (fun t u : ℚ × String => u.1 < t.1 ∨ (u.1 = t.1 ∧ u.2 ≤ t.2))
      (poss.filterMap (fun x =>
        let r := smRatio x.toList word.toList
        if cutoff ≤ r then some (r, x) else none)) :=
    (List.take_subset _ _) hp
  have hpf : p ∈ poss.filterMap (fun x =>
      let r := smRatio x.toList word.toList
      if cutoff ≤ r then some (r, x) else none) :=
    (List.perm_insertionSort _ _).mem_iff.mp hps
  obtain ⟨y, hy, hyp⟩ := List.mem_filterMap.mp hpf
  simp only at hyp
  by_cases hc : cutoff ≤ smRatio y.toList word.toList
  · rw [if_pos hc] at hyp
    cases hyp
    exact hpx ▸ hy
  · rw [if_neg hc] at hyp
    exact absurd hyp (Option.noConfusion)

/-- Any index produced by the resolution cascade is a valid row index. -/
lemma resolveSong_inr_lt {songs : List Song} {q : String} {i : Nat}
    (h : resolveSong songs q = Sum.inr i) : i < songs.length := by
  unfold resolveSong at h
  cases h1 : idxWhere songs (fun s => strLower s.track_name == q) with
  | cons j t => rw [h1] at h; cases h; exact (idxWhere_head h1).1
  | nil =>
  rw [h1] at h
  cases h2 : idxWhere songs (fun s => strContains (strLower s.track_name) q) with
  | cons j t => rw [h2] at h; cases h; exact (idxWhere_head h2).1
  | nil =>
  rw [h2] at h
  cases h3 : idxWhere songs (fun s => strContains (strLower s.track_artist) q) with
  | cons j t => rw [h3] at h; cases h; exact (idxWhere_head h3).1
  | nil =>
  rw [h3] at h
  simp only at h
  cases h4 : (getCloseMatches q (songs.map (fun s => strLower s.track_name)) 5
      (3/5)).find?
      (fun c => !(idxWhere songs (fun s => strLower s.track_name == c)).isEmpty) with
  | none => rw [h4] at h; exact absurd h (by simp)
  | some c =>
  rw [h4] at h
  dsimp only at h
  cases h5 : idxWhere songs (fun s => strLower s.track_name == c) with
  | nil => rw [h5] at h; exact absurd h (by simp)
  | cons j t => rw [h5] at h; cases h; exact (idxWhere_head h5).1

/-! ### Numeric lemmas (standardization and cosine similarity) -/

lemma dotL_nil_right (x : List ℚ) : dotL x [] = 0 := by
  cases x <;> rfl

lemma dotL_cons (a b : ℚ) (x y : List ℚ) :
    dotL (a :: x) (b :: y) = a * b + dotL x y := by
  unfold dotL
  rw [List.zipWith_cons_cons, List.sum_cons]

lemma normSq_cons (a : ℚ) (x : List ℚ) :
    normSq (a :: x) = a * a + normSq x := dotL_cons a a x x

lemma normSq_nonneg (x : List ℚ) : 0 ≤ normSq x := by
  induction x with
  | nil => exact le_refl 0
  | cons a t ih => rw [normSq_cons]; nlinarith [mul_self_nonneg a]

lemma normSq_eq_zero_all {x : List ℚ} (h : normSq x = 0) : ∀ a ∈ x, a = 0 := by
  induction x with
  | nil => intro a ha; exact absurd ha (List.not_mem_nil a)
  | cons b t ih =>
    rw [normSq_cons] at h
    have hb : b * b = 0 ∧ normSq t = 0 := by
      constructor <;> nlinarith [mul_self_nonneg b, normSq_nonneg t]
    intro a ha
    rcases List.mem_cons.mp ha with rfl | hat
    · exact mul_self_eq_zero.mp hb.1
    · exact ih hb.2 a hat

lemma dotL_zero_left {x : List ℚ} (hx : ∀ a ∈ x, a = 0) (y : List ℚ) :
    dotL x y = 0 := by
  induction x generalizing y with
  | nil => cases y <;> rfl
  | cons a t ih =>
    cases y with
    | nil => exact dotL_nil_right _
    | cons b u =>
      rw [dotL_cons, hx a (List.mem_cons_self a t),
        ih (fun c hc => hx c (List.mem_cons_of_mem a hc)) u]
      ring

lemma dotL_map_div (x y : List ℚ) (a b : ℚ) :
    dotL (x.map (· / a)) (y.map (· / b)) = dotL x y / (a * b) := by
  induction x generalizing y with
  | nil =>
    simp only [List.map_nil]
    cases y <;> simp [dotL]
  | cons c t ih =>
    cases y with
    | nil => simp [dotL]
    | cons d u =>
      simp only [List.map_cons]
      rw [dotL_cons, dotL_cons, ih u, div_mul_div_comm, div_add_div_same]

lemma dotL_sq_le (x y : List ℚ) : (dotL x y) ^ 2 ≤ normSq x * normSq y := by
  induction x generalizing y with
  | nil =>
    cases y <;> simp [dotL, normSq]
  | cons a t ih =>
    cases y with
    | nil =>
      rw [dotL_nil_right]
      have := normSq_nonneg (a :: t)
      have h0 : normSq ([] : List ℚ) = 0 := rfl
      rw [h0]
      nlinarith
    | cons b u =>
      rw [dotL_cons, normSq_cons, normSq_cons]
      have hd := ih u
      have hs := normSq_nonneg t
      have ht := normSq_nonneg u
      by_cases ht0 : normSq u = 0
      · have hle : dotL t u ^ 2 ≤ 0 := by rw [ht0, mul_zero] at hd; exact hd
        have hzero : dotL t u ^ 2 = 0 := le_antisymm hle (sq_nonneg _)
        have hd0 : dotL t u = 0 := pow_eq_zero_iff (n := 2) (by norm_num) |>.mp hzero
        rw [hd0, ht0]
        nlinarith [mul_nonneg hs (mul_self_nonneg b)]
      · have htpos : 0 < normSq u := lt_of_le_of_ne ht (Ne.symm ht0)
        have h1 : 0 ≤ normSq t * normSq u - dotL t u ^ 2 := by linarith
        nlinarith [sq_nonneg (a * normSq u - b * dotL t u),
          mul_nonneg (mul_self_nonneg b) h1, mul_nonneg ht h1]

lemma cosineSim_zero_left {x : List ℚ} (h : normSq x = 0) (y : List ℚ)
    (nx ny : ℚ) : cosineSim x y nx ny = 0 := by
  unfold cosineSim normalizeRow
  apply dotL_zero_left
  intro a ha
  obtain ⟨b, hb, hba⟩ := List.mem_map.mp ha
  rw [← hba, normSq_eq_zero_all h b hb, zero_div]

lemma cosineSim_bounds {x y : List ℚ} {nx ny : ℚ}
    (hx : IsNormOf nx x) (hy : IsNormOf ny y) :
    -1 ≤ cosineSim x y nx ny ∧ cosineSim x y nx ny ≤ 1 := by
  obtain ⟨hx0, hxn⟩ := hx
  obtain ⟨hy0, hyn⟩ := hy
  by_cases hxz : nx = 0
  · have : normSq x = 0 := by rw [← hxn, hxz, mul_zero]
    rw [cosineSim_zero_left this]
    norm_num
  · by_cases hyz : ny = 0
    · have hy' : normSq y = 0 := by rw [← hyn, hyz, mul_zero]
      have : cosineSim x y nx ny = 0 := by
        unfold cosineSim normalizeRow
        rw [dotL_map_div]
        have hzero : dotL x y = 0 := by
          have hcomm : dotL x y = dotL y x := by
            unfold dotL
            rw [List.zipWith_comm_of_comm _ (fun a b => mul_comm a b)]
          rw [hcomm]
          exact dotL_zero_left (normSq_eq_zero_all hy') x
        rw [hzero, zero_div]
      rw [this]; norm_num
    · have hxpos : 0 < nx := lt_of_le_of_ne hx0 (Ne.symm hxz)
      have hypos : 0 < ny := lt_of_le_of_ne hy0 (Ne.symm hyz)
      have hform : cosineSim x y nx ny = dotL x y / (nx * ny) := by
        unfold cosineSim normalizeRow
        rw [if_neg hxz, if_neg hyz, dotL_map_div]
      have hsq : (dotL x y / (nx * ny)) ^ 2 ≤ 1 := by
        rw [div_pow]
        have hnn : (0:ℚ) < (nx * ny) ^ 2 := by positivity
        rw [div_le_one hnn]
        calc (dotL x y) ^ 2 ≤ normSq x * normSq y := dotL_sq_le x y
          _ = (nx * ny) ^ 2 := by rw [← hxn, ← hyn]; ring
      rw [hform]
      constructor <;> nlinarith [hsq, sq_nonneg (dotL x y / (nx * ny) - 1),
        sq_nonneg (dotL x y / (nx * ny) + 1)]

lemma sum_map_sq_nonneg (m : ℚ) (xs : List ℚ) :
    0 ≤ (xs.map (fun x => (x - m) ^ 2)).sum := by
  induction xs with
  | nil => simp
  | cons b t ih =>
    rw [List.map_cons, List.sum_cons]
    nlinarith [sq_nonneg (b - m)]

lemma sum_map_sq_eq_zero {m : ℚ} {xs : List ℚ}
    (h : (xs.map (fun x => (x - m) ^ 2)).sum = 0) : ∀ x ∈ xs, x = m := by
  induction xs with
  | nil => intro x hx; exact absurd hx (List.not_mem_nil x)
  | cons b t ih =>
    rw [List.map_cons, List.sum_cons] at h
    have hb : (b - m) ^ 2 = 0 ∧ (t.map (fun x => (x - m) ^ 2)).sum = 0 := by
      constructor <;> nlinarith [sq_nonneg (b - m), sum_map_sq_nonneg m t]
    intro x hx
    rcases List.mem_cons.mp hx with rfl | hxt
    · have := pow_eq_zero_iff (n := 2) (by norm_num) |>.mp hb.1
      linarith
    · exact ih hb.2 x hxt

lemma colVar_zero_all {xs : List ℚ} (hne : xs ≠ []) (h : colVar xs = 0) :
    ∀ x ∈ xs, x = colMean xs := by
  unfold colVar at h
  have hlen : (0:ℚ) < (xs.length : ℚ) := by
    have : 0 < xs.length := List.length_pos.mpr hne
    exact_mod_cast this
  have hsum : (xs.map (fun x => (x - colMean xs) ^ 2)).sum = 0 := by
    rcases div_eq_zero_iff.mp h with h' | h'
    · exact h'
    · exact absurd h' (ne_of_gt hlen)
  exact sum_map_sq_eq_zero hsum

/-! ### Helper lemmas for membership and sampling -/

lemma getD_mem {α : Type} {l : List α} {i : Nat} (h : i < l.length) (d : α) :
    l.getD i d ∈ l := by
  rw [List.getD_eq_getElem l d h]
  exact List.getElem_mem h

lemma simScores_length (mat : List (List ℚ)) (norms : List ℚ) (qIdx : Nat) :
    (simScores mat norms qIdx).length = min mat.length norms.length := by
  unfold simScores
  rw [List.length_map, List.length_zip]

lemma mem_recsFromIdx {songs : List Song} {s : List ℚ} {k minPop : Nat}
    {r : RecEntry} (h : r ∈ recsFromIdx songs s k minPop) :
    ∃ i, i ∈ keptIndices songs s k minPop ∧
      r = mkRecEntry (songs.getD i dfltSong) (s.getD i 0) := by
  unfold recsFromIdx at h
  obtain ⟨i, hi, hir⟩ := List.mem_map.mp h
  exact ⟨i, hi, hir.symm⟩

lemma randomFiltered_subset (songs : List Song) (minPop : Nat)
    (genre : Option String) : ∀ s ∈ randomFiltered songs minPop genre, s ∈ songs := by
  intro s hs
  unfold randomFiltered at hs
  have hf1 : ∀ x ∈ (if 0 < minPop then
      songs.filter (fun s => decide (minPop ≤ s.track_popularity)) else songs),
      x ∈ songs := by
    intro x hx
    by_cases hmp : 0 < minPop
    · rw [if_pos hmp] at hx; exact List.mem_of_mem_filter hx
    · rw [if_neg hmp] at hx; exact hx
  cases genre with
  | none => exact hf1 s hs
  | some g => exact hf1 s (List.mem_of_mem_filter hs)

lemma indianFiltered_subset (songs : List Song) (minPop : Nat) :
    ∀ s ∈ indianFiltered songs minPop, s ∈ songs := by
  intro s hs
  unfold indianFiltered at hs
  by_cases hmp : 0 < minPop
  · rw [if_pos hmp] at hs
    exact List.mem_of_mem_filter (List.mem_of_mem_filter hs)
  · rw [if_neg hmp] at hs
    exact List.mem_of_mem_filter hs

/-- When the cascade fails completely, the fuzzy candidate list was empty
(every close match is a lowercased title and would have resolved), so the
suggestion list attached to the error is empty as well. -/
lemma resolveSong_inl {songs : List Song} {q : String} {sg : List String}
    (h : resolveSong songs q = Sum.inl sg) :
    getCloseMatches q (songs.map (fun s => strLower s.track_name)) 5 (3/5) = [] ∧
      sg = [] := by
  unfold resolveSong at h
  cases h1 : idxWhere songs (fun s => strLower s.track_name == q) with
  | cons j t => rw [h1] at h; exact absurd h (by simp)
  | nil =>
  rw [h1] at h
  cases h2 : idxWhere songs (fun s => strContains (strLower s.track_name) q) with
  | cons j t => rw [h2] at h; exact absurd h (by simp)
  | nil =>
  rw [h2] at h
  cases h3 : idxWhere songs (fun s => strContains (strLower s.track_artist) q) with
  | cons j t => rw [h3] at h; exact absurd h (by simp)
  | nil =>
  rw [h3] at h
  simp only at h
  cases h4 : (getCloseMatches q (songs.map (fun s => strLower s.track_name)) 5
      (3/5)).find?
      (fun c => !(idxWhere songs (fun s => strLower s.track_name == c)).isEmpty) with
  | some c =>
    rw [h4] at h
    dsimp only at h
    have hpred := List.find?_some h4
    cases h5 : idxWhere songs (fun s => strLower s.track_name == c) with
    | cons j t => rw [h5] at h; exact absurd h (by simp)
    | nil =>
      rw [h5] at hpred
      simp [List.isEmpty] at hpred
  | none =>
    rw [h4] at h
    dsimp only at h
    have hsim : getCloseMatches q (songs.map (fun s => strLower s.track_name)) 5
        (3/5) = [] := by
      by_contra hne
      obtain ⟨c, t, hct⟩ := List.exists_cons_of_ne_nil hne
      have hcm : c ∈ getCloseMatches q (songs.map (fun s => strLower s.track_name))
          5 (3/5) := by rw [hct]; exact List.mem_cons_self _ _
      have hcp : c ∈ songs.map (fun s => strLower s.track_name) :=
        getCloseMatches_subset hcm
      obtain ⟨s, hsmem, hsc⟩ := List.mem_map.mp hcp
      obtain ⟨⟨i, hilen⟩, hig⟩ := List.mem_iff_get.mp hsmem
      have hpi : (fun s => strLower s.track_name == c) (songs.getD i dfltSong) = true := by
        show (strLower (songs.getD i dfltSong).track_name == c) = true
        rw [List.getD_eq_getElem songs dfltSong hilen]
        have hgs : songs[i] = s := (List.get_eq_getElem songs ⟨i, hilen⟩).symm.trans hig
        rw [hgs, hsc]
        exact beq_self_eq_true c
      have hnn : idxWhere songs (fun s => strLower s.track_name == c) ≠ [] :=
        idxWhere_ne_nil hilen hpi
      have hfind := List.find?_eq_none.mp h4 c hcm
      cases hie : (idxWhere songs (fun s => strLower s.track_name == c)).isEmpty with
      | true => exact hnn (List.isEmpty_iff.mp hie)
      | false =>
        apply hfind
        show (!(idxWhere songs (fun s => strLower s.track_name == c)).isEmpty) = true
        rw [hie]
        rfl
    rw [hsim] at h
    cases h
    exact ⟨hsim, rfl⟩

/-! ### Concrete catalog data used by the concrete evaluations -/

/-- Build a concrete catalog row (unspecified audio features stay 0). -/
def tSong (t a : String) (pop : Nat) : Song :=
  { dfltSong with
    track_name := t, track_artist := a, track_popularity := pop,
    duration_ms := 215000 }

def demoA : Song := tSong "a" "aa" 40

def demoB : Song := tSong "b" "bb" 50

def demoC : Song := tSong "c" "cc" 0

def demoSongs : List Song := [demoA, demoB, demoC]

/-- A deterministic but valid stand-in for `np.random.choice(n, k,
replace=False)`: the first `k` indices. -/
def sampleByOrder : Nat → Nat → List Nat := fun _ k => List.range k

lemma sampleByOrder_valid : ∀ n k, k ≤ n → ValidChoice n k (sampleByOrder n k) :=
  fun _ k hk => ⟨List.length_range k, List.nodup_range k,
    fun _ hi => lt_of_lt_of_le (List.mem_range.mp hi) hk⟩

/-! ### Claim C1 -/

/-- C1. The claim says `get_recommendations` never returns the query's own
row (exclusion by row index, not by tied score). The code instead drops
only the single top entry of the ascending argsort: on a catalog whose
rows 0 and 1 carry identical standardized vectors (both tie the query's
self-similarity 1), querying row 0 ("a") with `num_recommendations = 1`
returns row 0 itself — the query row — because the stable argsort places
the duplicate row 1 last and the slice `[-2:-1]` keeps row 0. This
evaluates the code at that failing input. -/
theorem C1_code_eval :
    get_recommendations demoSongs [[1,0],[1,0],[0,1]] [1,1,1] "a" 1 0 =
      RecResult.ok [mkRecEntry demoA 1] (mkSimpleRec demoA) := by
  with_unfolding_all decide

/-! ### Claim C2 -/

/-- C2 counterexample. The claim says the popularity floor filters the FULL
similarity ranking and the first `k` survivors are returned. In the code the
ranking is truncated to the top `k` BEFORE the popularity filter: with
scores `[1, 3/5, 4/5]`, `k = 1` and `minPopularity = 10`, the single
top-ranked row (row 2, popularity 0) is filtered away and the code returns
the empty list, while the spec-side reading (`specRecommend`) returns the
surviving row 1. -/
theorem C2_counterexample :
    get_recommendations demoSongs [[1,0],[3,4],[4,3]] [1,5,5] "a" 1 10 =
      RecResult.ok [] (mkSimpleRec demoA) ∧
    specRecommend demoSongs (simScores [[1,0],[3,4],[4,3]] [1,5,5] 0) 0 1 10 =
      [mkRecEntry demoB (3/5)] := by
  constructor
  · with_unfolding_all decide
  · with_unfolding_all decide

/-- C2 amended: the code filters popularity only over the `k` rows kept
after truncating the ranking (minus the dropped top entry), so every
returned row passes the floor and at most `k` rows are returned, and if no
catalog row reaches the floor (e.g. `minPopularity = 101` with popularity
capped at 100) the result is empty — but survivors ranked below the top
`k` are NOT pulled in to replace filtered-out rows. -/
theorem C2_amended (songs : List Song) (scores : List ℚ) (k minPop : Nat) :
    (∀ r ∈ recsFromIdx songs scores k minPop, minPop ≤ r.popularity) ∧
    (recsFromIdx songs scores k minPop).length ≤ k ∧
    (0 < minPop → (∀ s ∈ songs, s.track_popularity < minPop) →
      recsFromIdx songs scores k minPop = []) := by
  refine ⟨?_, ?_, ?_⟩
  · intro r hr
    obtain ⟨i, hik, hre⟩ := mem_recsFromIdx hr
    have hpop := (mem_keptIndices hik).2
    rw [hre]
    exact hpop
  · unfold recsFromIdx keptIndices
    rw [List.length_map]
    exact le_trans (List.length_filter_le _ _) (topIndices_length_le scores k)
  · intro hpos hall
    unfold recsFromIdx keptIndices
    have hnil : (topIndices scores k).filter
        (fun i => minPop ≤ (songs.getD i dfltSong).track_popularity) = [] := by
      rw [List.filter_eq_nil_iff]
      intro i _
      simp only [decide_eq_true_eq, not_le]
      by_cases hlen : i < songs.length
      · exact hall _ (getD_mem hlen dfltSong)
      · rw [List.getD_eq_default _ _ (le_of_not_lt hlen)]
        exact hpos
    rw [hnil, List.map_nil]

/-- C2 amended witness at a concrete input: `minPopularity = 101` yields an
empty recommendation list. -/
theorem C2_amended_witness :
    recsFromIdx demoSongs (simScores [[1,0],[3,4],[4,3]] [1,5,5] 0) 5 101 = [] ∧
    (recsFromIdx demoSongs (simScores [[1,0],[3,4],[4,3]] [1,5,5] 0) 5 101).length ≤ 5 :=
  ⟨(C2_amended demoSongs (simScores [[1,0],[3,4],[4,3]] [1,5,5] 0) 5 101).2.2
      (by decide) (by with_unfolding_all decide),
    (C2_amended demoSongs (simScores [[1,0],[3,4],[4,3]] [1,5,5] 0) 5 101).2.1⟩

/-! ### Claim C3 -/

/-- C3 counterexample. The claim says score ties are broken by ASCENDING
row index. With rows 1 and 2 carrying identical vectors (both score `3/5`
against the query row 0), the code returns row 2 before row 1: the
ascending stable argsort `[1, 2, 0]` is sliced and REVERSED, so equal
scores come out in descending row order. -/
theorem C3_counterexample :
    get_recommendations demoSongs [[1,0],[3,4],[3,4]] [1,5,5] "a" 5 0 =
      RecResult.ok [mkRecEntry demoC (3/5), mkRecEntry demoB (3/5)]
        (mkSimpleRec demoA) ∧
    (mkRecEntry demoC (3/5)).similarity_score =
      (mkRecEntry demoB (3/5)).similarity_score := by
  constructor
  · with_unfolding_all decide
  · rfl

/-- C3 amended: the recommendation list is sorted non-increasing by
similarity score — proved for the slice/filter/map pipeline applied to ANY
score-ascending argsort permutation `ord`, independent of tie order, since
numpy's default argsort guarantees no tie order for arrays longer than 16
elements; the claimed ascending-row-index tie-break does NOT hold (see the
counterexample, where numpy's small-array argsort really is stable and the
tied rows come out in descending index order), and no tie order is asserted
in general. The concrete pipeline `recsFromIdx` is the instance at the
small-array stable order `argsortAsc`, which is itself score-ascending. -/
theorem C3_amended (songs : List Song) (scores : List ℚ) (ord : List Nat)
    (k minPop : Nat)
    (hord : List.Pairwise (fun i j => scores.getD i 0 ≤ scores.getD j 0) ord) :
    List.Pairwise (fun a b : RecEntry => b.similarity_score ≤ a.similarity_score)
      (recsFromIdxOf songs ord scores k minPop) ∧
    recsFromIdx songs scores k minPop =
      recsFromIdxOf songs (argsortAsc scores) scores k minPop ∧
    List.Pairwise (fun i j => scores.getD i 0 ≤ scores.getD j 0)
      (argsortAsc scores) := by
  refine ⟨?_, rfl, argsortAsc_pairwise_le scores⟩
  unfold recsFromIdxOf keptIndicesOf
  rw [List.pairwise_map]
  refine ((topIndicesOf_pairwise k hord).filter _).imp ?_
  intro i j h
  exact h

/-- C3 amended witness: the tied-score catalog of the counterexample, with
an argsort order whose tie order is the OPPOSITE of the stable one —
the output is still non-increasing in score. -/
theorem C3_amended_witness :
    List.Pairwise (fun a b : RecEntry => b.similarity_score ≤ a.similarity_score)
      (recsFromIdxOf demoSongs [2, 1, 0]
        (simScores [[1,0],[3,4],[3,4]] [1,5,5] 0) 5 0) ∧
    recsFromIdx demoSongs (simScores [[1,0],[3,4],[3,4]] [1,5,5] 0) 5 0 =
      recsFromIdxOf demoSongs (argsortAsc (simScores [[1,0],[3,4],[3,4]] [1,5,5] 0))
        (simScores [[1,0],[3,4],[3,4]] [1,5,5] 0) 5 0 ∧
    List.Pairwise (fun i j =>
        (simScores [[1,0],[3,4],[3,4]] [1,5,5] 0).getD i 0 ≤
        (simScores [[1,0],[3,4],[3,4]] [1,5,5] 0).getD j 0)
      (argsortAsc (simScores [[1,0],[3,4],[3,4]] [1,5,5] 0)) :=
  C3_amended demoSongs (simScores [[1,0],[3,4],[3,4]] [1,5,5] 0) [2, 1, 0] 5 0
    (by with_unfolding_all decide)

/-! ### Claim C4 -/

/-- C4 counterexample. The claim says every query that equals some title
case-insensitively resolves at step 1 (exact title match). The code strips
the QUERY but not the titles: the query `"hello "` equals row 1's title
`"hello "` case-insensitively, yet after stripping it becomes `"hello"`,
step 1 finds nothing, and the substring step resolves to row 0
(`"xhello"`), a row whose title is NOT case-insensitively equal to the
query. -/
theorem C4_counterexample :
    resolveSong [tSong "xhello" "p" 1, tSong "hello " "r" 1]
        (strTrim (strLower "hello ")) = Sum.inr 0 ∧
    strLower (tSong "hello " "r" 1).track_name = strLower "hello " ∧
    strLower (tSong "xhello" "p" 1).track_name ≠ strLower "hello " := by
  refine ⟨by with_unfolding_all decide, by decide, by decide⟩

/-- C4 amended: for every query whose NORMALIZED form (lowercased and
stripped, as the code normalizes it) equals some lowercased title, the
cascade resolves at step 1 — regardless of any substring/artist/fuzzy
matches — and selects the smallest matching row index; `get_recommendations`
then returns the success result built from that row. -/
theorem C4_amended (songs : List Song) (q : String) (i : Nat)
    (hi : i < songs.length)
    (hq : strLower (songs.getD i dfltSong).track_name = strTrim (strLower q)) :
    ∃ j, resolveSong songs (strTrim (strLower q)) = Sum.inr j ∧ j ≤ i ∧
      strLower (songs.getD j dfltSong).track_name = strTrim (strLower q) ∧
      (∀ j', j' < j → strLower (songs.getD j' dfltSong).track_name ≠
        strTrim (strLower q)) ∧
      ∀ mat norms k mp, get_recommendations songs mat norms q k mp =
        RecResult.ok (recsFromIdx songs (simScores mat norms j) k mp)
          (mkSimpleRec (songs.getD j dfltSong)) := by
  have hpi : (fun s => strLower s.track_name == strTrim (strLower q))
      (songs.getD i dfltSong) = true := by
    show (strLower (songs.getD i dfltSong).track_name == strTrim (strLower q)) = true
    rw [hq]
    exact beq_self_eq_true _
  have hne := @idxWhere_ne_nil songs
    (fun s => strLower s.track_name == strTrim (strLower q)) i hi hpi
  obtain ⟨j, t, hE⟩ := List.exists_cons_of_ne_nil hne
  obtain ⟨hjlen, hpj, hmin⟩ := idxWhere_head hE
  have hres : resolveSong songs (strTrim (strLower q)) = Sum.inr j := by
    unfold resolveSong
    rw [hE]
  have hji : j ≤ i := by
    by_contra hgt
    have hfalse := hmin i (lt_of_not_le hgt)
    have htrue : (strLower (songs.getD i dfltSong).track_name ==
        strTrim (strLower q)) = true := hpi
    rw [htrue] at hfalse
    exact Bool.true_eq_false.mp hfalse
  refine ⟨j, hres, hji, ?_, ?_, ?_⟩
  · exact beq_iff_eq.mp hpj
  · intro j' hj' heq
    have hfalse := hmin j' hj'
    have htrue : (strLower (songs.getD j' dfltSong).track_name ==
        strTrim (strLower q)) = true := by
      rw [heq]
      exact beq_self_eq_true _
    rw [htrue] at hfalse
    exact Bool.true_eq_false.mp hfalse
  · intro mat norms k mp
    unfold get_recommendations
    simp only [hres]

/-- C4 amended witness: a query differing from the stored title only in
case resolves at step 1 to the unique matching row. -/
theorem C4_amended_witness :
    ∃ j, resolveSong [tSong "hello" "x" 7] (strTrim (strLower "HELLO")) =
        Sum.inr j ∧ j ≤ 0 ∧
      strLower ([tSong "hello" "x" 7].getD j dfltSong).track_name =
        strTrim (strLower "HELLO") ∧
      (∀ j', j' < j → strLower ([tSong "hello" "x" 7].getD j' dfltSong).track_name ≠
        strTrim (strLower "HELLO")) ∧
      ∀ mat norms k mp, get_recommendations [tSong "hello" "x" 7] mat norms
          "HELLO" k mp =
        RecResult.ok (recsFromIdx [tSong "hello" "x" 7] (simScores mat norms j) k mp)
          (mkSimpleRec ([tSong "hello" "x" 7].getD j dfltSong)) :=
  C4_amended [tSong "hello" "x" 7] "HELLO" 0 (by decide) (by decide)

/-! ### Claim C5 -/

/-- C5 counterexample. The claim says empty/whitespace-only queries are
rejected with an error before any matching. The code has no such check: the
empty query is normalized to `""`, the exact step finds nothing, and since
every title contains the empty substring, the substring step matches every
row and the query resolves to row 0, returning a normal success result. -/
theorem C5_counterexample :
    get_recommendations [tSong "abc" "x" 10, tSong "bcd" "y" 20]
        [[1,0],[0,1]] [1,1] "" 5 0 =
      RecResult.ok [mkRecEntry (tSong "bcd" "y" 20) 0]
        (mkSimpleRec (tSong "abc" "x" 10)) ∧
    get_recommendations [tSong "abc" "x" 10, tSong "bcd" "y" 20]
        [[1,0],[0,1]] [1,1] "   " 5 0 =
      RecResult.ok [mkRecEntry (tSong "bcd" "y" 20) 0]
        (mkSimpleRec (tSong "abc" "x" 10)) := by
  refine ⟨by with_unfolding_all decide, by with_unfolding_all decide⟩

/-- C5 amended: an empty or whitespace-only query is NOT rejected — no
`InvalidQueryError` exists in the code. The query normalizes to the empty
string; provided no lowercased title is itself empty, step 1 fails, the
substring step matches every row (the empty string is a substring of
anything), and resolution returns row 0, so `get_recommendations` returns a
normal success result. -/
theorem C5_amended (songs : List Song) (q : String)
    (hq : strTrim (strLower q) = "") (hne : songs ≠ [])
    (ht : ∀ s ∈ songs, strLower s.track_name ≠ "") :
    resolveSong songs (strTrim (strLower q)) = Sum.inr 0 ∧
    ∀ mat norms k mp, get_recommendations songs mat norms q k mp =
      RecResult.ok (recsFromIdx songs (simScores mat norms 0) k mp)
        (mkSimpleRec (songs.getD 0 dfltSong)) := by
  have h1 : idxWhere songs (fun s => strLower s.track_name == strTrim (strLower q))
      = [] := by
    unfold idxWhere
    rw [List.filter_eq_nil_iff]
    intro i hi
    have hilen := List.mem_range.mp hi
    intro hcontra
    have heq := beq_iff_eq.mp hcontra
    rw [hq] at heq
    exact ht _ (getD_mem hilen dfltSong) heq
  have h2 : idxWhere songs
      (fun s => strContains (strLower s.track_name) (strTrim (strLower q)))
      = List.range songs.length := by
    unfold idxWhere
    rw [List.filter_eq_self]
    intro i _
    rw [hq]
    exact strContains_empty _
  obtain ⟨n, hn⟩ := Nat.exists_eq_succ_of_ne_zero
    (fun h0 => hne (List.eq_nil_of_length_eq_zero h0))
  have hres : resolveSong songs (strTrim (strLower q)) = Sum.inr 0 := by
    unfold resolveSong
    rw [h1, h2, hn, List.range_succ_eq_map]
  refine ⟨hres, ?_⟩
  intro mat norms k mp
  unfold get_recommendations
  simp only [hres]

/-- C5 amended witness: the empty query on a concrete two-row catalog
resolves to row 0. -/
theorem C5_amended_witness :
    resolveSong [tSong "abc" "x" 10, tSong "bcd" "y" 20]
        (strTrim (strLower "")) = Sum.inr 0 :=
  (C5_amended [tSong "abc" "x" 10, tSong "bcd" "y" 20] ""
    (by decide) (by decide) (by decide)).1

/-! ### Claim C6 -/

/-- C6 counterexample. The claim says a known mood whose range filters
match zero rows returns an EMPTY SEQUENCE rather than an error. The code
returns `None` — the very same sentinel it returns for an unknown mood —
so the "empty, not an error" half of the claim fails: on a one-row catalog
with valence 0 and energy 0, `happy` yields `None`, exactly like the
unknown mood `notamood`. -/
theorem C6_counterexample :
    get_mood_based_recommendations [tSong "a" "aa" 40] sampleByOrder "happy" 5 =
      none ∧
    get_mood_based_recommendations [tSong "a" "aa" 40] sampleByOrder "notamood" 5 =
      none := by
  refine ⟨by with_unfolding_all decide, by with_unfolding_all decide⟩

/-- C6 amended: an unknown mood (anything outside happy/sad/energetic/calm
after lowercasing) makes `get_mood_based_recommendations` return the error
sentinel `none`; a KNOWN mood whose filtered set is empty returns the SAME
sentinel `none`, not an empty sequence — the two failure cases are
indistinguishable to the caller. -/
theorem C6_amended (songs : List Song) (choice : Nat → Nat → List Nat)
    (mood : String) (numRecs : Nat) :
    (moodFilter mood = none →
      get_mood_based_recommendations songs choice mood numRecs = none) ∧
    (∀ p, moodFilter mood = some p → songs.filter p = [] →
      get_mood_based_recommendations songs choice mood numRecs = none) ∧
    (strLower mood ≠ "happy" → strLower mood ≠ "sad" →
      strLower mood ≠ "energetic" → strLower mood ≠ "calm" →
      moodFilter mood = none) := by
  refine ⟨?_, ?_, ?_⟩
  · intro h
    unfold get_mood_based_recommendations
    rw [h]
  · intro p hp hempty
    unfold get_mood_based_recommendations
    rw [hp]
    simp [hempty]
  · intro h1 h2 h3 h4
    unfold moodFilter
    rw [if_neg h1, if_neg h2, if_neg h3, if_neg h4]

/-- C6 amended witness: concrete instances of all three conjuncts. -/
theorem C6_amended_witness :
    get_mood_based_recommendations [tSong "a" "aa" 40] sampleByOrder "jazzy" 3 =
      none ∧
    get_mood_based_recommendations [tSong "a" "aa" 40] sampleByOrder "HAPPY" 3 =
      none ∧
    moodFilter "jazzy" = none :=
  ⟨(C6_amended [tSong "a" "aa" 40] sampleByOrder "jazzy" 3).1 rfl,
    (C6_amended [tSong "a" "aa" 40] sampleByOrder "HAPPY" 3).2.1 happyPred
      rfl (by with_unfolding_all decide),
    (C6_amended [tSong "a" "aa" 40] sampleByOrder "jazzy" 3).2.2
      (by decide) (by decide) (by decide) (by decide)⟩

/-! ### Claim C7 -/

/-- C7. When the whole cascade fails, `get_recommendations` returns the
error result whose suggestion list has at most 3 entries, each a lowercased
catalog title, and carries the user-facing not-found message; and because
every fuzzy candidate is itself a lowercased title (hence would have
resolved), the error branch is reached only with an empty candidate list,
so the suggestions are in fact always empty. -/
theorem C7_theorem (songs : List Song) (mat : List (List ℚ)) (norms : List ℚ)
    (q : String) (k mp : Nat) (msg : String) (sugg : List String)
    (h : get_recommendations songs mat norms q k mp = RecResult.err msg sugg) :
    sugg = [] ∧ sugg.length ≤ 3 ∧
    msg = "Song " ++ strTrim (strLower q) ++ " not found. Did you mean:" ∧
    ∀ t ∈ sugg, t ∈ songs.map (fun s => strLower s.track_name) := by
  unfold get_recommendations at h
  cases hres : resolveSong songs (strTrim (strLower q)) with
  | inr j =>
    simp only [hres] at h
    exact absurd h (by simp)
  | inl sg =>
    simp only [hres] at h
    obtain ⟨hsim, hsgnil⟩ := resolveSong_inl hres
    injection h with hmsg hsugg
    subst hsgnil
    refine ⟨hsugg.symm, ?_, hmsg.symm, ?_⟩
    · rw [← hsugg]
      exact Nat.zero_le 3
    · intro t ht
      rw [← hsugg] at ht
      exact absurd ht (List.not_mem_nil t)

/-- C7 witness: the query `zzzznotasong` on a one-row catalog has no close
matches; the result is the error with an empty suggestions list. -/
theorem C7_witness :
    ([] : List String) = [] ∧ ([] : List String).length ≤ 3 ∧
    ("Song zzzznotasong not found. Did you mean:" : String) =
      "Song " ++ strTrim (strLower "zzzznotasong") ++ " not found. Did you mean:" ∧
    ∀ t ∈ ([] : List String), t ∈
      [tSong "abc" "xq" 10].map (fun s => strLower s.track_name) :=
  C7_theorem [tSong "abc" "xq" 10] [[1]] [1] "zzzznotasong" 5 0
    "Song zzzznotasong not found. Did you mean:" []
    (by with_unfolding_all decide)

/-! ### Claim C8 -/

/-- C8. Each sampling operation draws `min(requested, available)` indices
without replacement from its filtered row set: assuming numpy's contract
for `np.random.choice(n, k, replace=False)` (`ValidChoice`), the sampled
positions are pairwise distinct and the returned sequence never exceeds the
number of rows that survive the operation's filters (all survivors are
returned when fewer than requested exist, and never a repeated row). -/
theorem C8_theorem (songs : List Song) (choice : Nat → Nat → List Nat)
    (hch : ∀ n k, k ≤ n → ValidChoice n k (choice n k))
    (numSongs minPop numRecs : Nat) (genre : Option String) (mood : String) :
    ((randomSampleIdxs songs choice numSongs minPop genre).Nodup ∧
      (get_random_songs songs choice numSongs minPop genre).length =
        min numSongs (randomFiltered songs minPop genre).length ∧
      (get_random_songs songs choice numSongs minPop genre).length ≤
        (randomFiltered songs minPop genre).length) ∧
    (∀ p recs, moodFilter mood = some p →
      get_mood_based_recommendations songs choice mood numRecs = some recs →
      (choice (songs.filter p).length (min numRecs (songs.filter p).length)).Nodup ∧
      recs.length = min numRecs (songs.filter p).length ∧
      recs.length ≤ (songs.filter p).length) ∧
    (∀ recs, get_indian_music_recommendations songs choice numRecs minPop =
        some recs →
      (choice (indianFiltered songs minPop).length
        (min numRecs (indianFiltered songs minPop).length)).Nodup ∧
      recs.length = min numRecs (indianFiltered songs minPop).length ∧
      recs.length ≤ (indianFiltered songs minPop).length) := by
  refine ⟨?_, ?_, ?_⟩
  · have hv := hch (randomFiltered songs minPop genre).length
      (min numSongs (randomFiltered songs minPop genre).length)
      (min_le_right _ _)
    refine ⟨hv.2.1, ?_, ?_⟩
    · unfold get_random_songs
      rw [List.length_map]
      exact hv.1
    · unfold get_random_songs
      rw [List.length_map]
      unfold randomSampleIdxs
      rw [hv.1]
      exact min_le_right _ _
  · intro p recs hp hsome
    unfold get_mood_based_recommendations at hsome
    rw [hp] at hsome
    simp only at hsome
    by_cases h0 : (songs.filter p).length = 0
    · rw [if_pos h0] at hsome
      exact absurd hsome (by simp)
    · rw [if_neg h0] at hsome
      injection hsome with hrec
      have hv := hch (songs.filter p).length
        (min numRecs (songs.filter p).length) (min_le_right _ _)
      refine ⟨hv.2.1, ?_, ?_⟩
      · rw [← hrec, List.length_map, hv.1]
      · rw [← hrec, List.length_map, hv.1]
        exact min_le_right _ _
  · intro recs hsome
    unfold get_indian_music_recommendations at hsome
    by_cases h0 : (songs.filter isIndianRow).length = 0
    · rw [if_pos h0] at hsome
      exact absurd hsome (by simp)
    · rw [if_neg h0] at hsome
      simp only at hsome
      injection hsome with hrec
      have hv := hch (indianFiltered songs minPop).length
        (min numRecs (indianFiltered songs minPop).length) (min_le_right _ _)
      refine ⟨hv.2.1, ?_, ?_⟩
      · rw [← hrec, List.length_map, hv.1]
      · rw [← hrec, List.length_map, hv.1]
        exact min_le_right _ _

/-- C8 witness: the random-sampling conjunct at a concrete catalog with the
order-preserving valid sampler. -/
theorem C8_witness :
    (randomSampleIdxs demoSongs sampleByOrder 5 0 none).Nodup ∧
    (get_random_songs demoSongs sampleByOrder 5 0 none).length =
      min 5 (randomFiltered demoSongs 0 none).length ∧
    (get_random_songs demoSongs sampleByOrder 5 0 none).length ≤
      (randomFiltered demoSongs 0 none).length :=
  (C8_theorem demoSongs sampleByOrder sampleByOrder_valid 5 0 5 none "happy").1

/-! ### Claim C9 -/

/-- C9. Degenerate numeric cases are total: (a) a zero-variance (constant)
feature column standardizes every one of its values to 0 (sklearn replaces
the zero scale by 1, and each value equals the mean); (b) a zero-norm
standardized vector has cosine similarity 0 against every vector; (c) all
cosine-similarity scores lie in `[-1, 1]` (with the supplied norms being
the true Euclidean norms). -/
theorem C9_theorem :
    (∀ (xs : List ℚ) (sv x : ℚ), x ∈ xs → sv * sv = colVar xs →
      colVar xs = 0 →
      transformVal (colMean xs) (handleZeroScale sv) x = 0) ∧
    (∀ (x y : List ℚ) (nx ny : ℚ), normSq x = 0 → cosineSim x y nx ny = 0) ∧
    (∀ (x y : List ℚ) (nx ny : ℚ), IsNormOf nx x → IsNormOf ny y →
      -1 ≤ cosineSim x y nx ny ∧ cosineSim x y nx ny ≤ 1) := by
  refine ⟨?_, ?_, ?_⟩
  · intro xs sv x hx hsv hvar
    have hsv0 : sv = 0 := mul_self_eq_zero.mp (hsv.trans hvar)
    have hxm : x = colMean xs :=
      colVar_zero_all (List.ne_nil_of_mem hx) hvar x hx
    unfold transformVal handleZeroScale
    rw [hsv0, if_pos rfl, hxm]
    simp
  · intro x y nx ny h
    exact cosineSim_zero_left h y nx ny
  · intro x y nx ny hx hy
    exact cosineSim_bounds hx hy

/-- C9 witness: concrete instances — the constant column `[2, 2]`, the
zero vector against `[1, 2]`, and `[3, 4]` (norm 5) against `[1, 0]`
(norm 1). -/
theorem C9_witness :
    transformVal (colMean [2, 2]) (handleZeroScale 0) 2 = 0 ∧
    cosineSim [0, 0] [1, 2] 3 1 = 0 ∧
    (-1 ≤ cosineSim [3, 4] [1, 0] 5 1 ∧ cosineSim [3, 4] [1, 0] 5 1 ≤ 1) :=
  ⟨C9_theorem.1 [2, 2] 0 2 (by norm_num)
      (by with_unfolding_all decide) (by with_unfolding_all decide),
    C9_theorem.2.1 [0, 0] [1, 2] 3 1 (by with_unfolding_all decide),
    C9_theorem.2.2 [3, 4] [1, 0] 5 1
      (by constructor <;> with_unfolding_all decide)
      (by constructor <;> with_unfolding_all decide)⟩

/-! ### Claim C10 -/

lemma sample_map_mem {fl : List Song} {choice : Nat → Nat → List Nat}
    (hch : ∀ n k, k ≤ n → ValidChoice n k (choice n k)) (numRecs : Nat)
    {r : SimpleRec}
    (hr : r ∈ (choice fl.length (min numRecs fl.length)).map
      (fun i => mkSimpleRec (fl.getD i dfltSong))) :
    ∃ s ∈ fl, r = mkSimpleRec s := by
  obtain ⟨i, hi, hir⟩ := List.mem_map.mp hr
  have hilt : i < fl.length :=
    (hch fl.length (min numRecs fl.length) (min_le_right _ _)).2.2 i hi
  exact ⟨fl.getD i dfltSong, getD_mem hilt dfltSong, hir.symm⟩

/-- C10. Every record produced by every recommendation operation is built
from a catalog row and carries `duration = duration_ms / 1000` (whole
seconds, floor division), under numpy's sampling contract and the catalog
invariant that the feature matrix has one row per song. -/
theorem C10_theorem (songs : List Song) (mat : List (List ℚ)) (norms : List ℚ)
    (choice : Nat → Nat → List Nat)
    (hch : ∀ n k, k ≤ n → ValidChoice n k (choice n k))
    (hLen : mat.length = songs.length)
    (q mood genreQ : String) (k mp numSongs numRecs : Nat)
    (genre : Option String) :
    (∀ recs inp, get_recommendations songs mat norms q k mp =
        RecResult.ok recs inp →
      (∀ r ∈ recs, ∃ s ∈ songs, r = mkRecEntry s r.similarity_score ∧
        r.duration = s.duration_ms / 1000) ∧
      ∃ s ∈ songs, inp = mkSimpleRec s ∧ inp.duration = s.duration_ms / 1000) ∧
    (∀ recs, get_mood_based_recommendations songs choice mood numRecs =
        some recs →
      ∀ r ∈ recs, ∃ s ∈ songs, r = mkSimpleRec s ∧
        r.duration = s.duration_ms / 1000) ∧
    (∀ r ∈ get_random_songs songs choice numSongs mp genre,
      ∃ s ∈ songs, r = mkSimpleRec s ∧ r.duration = s.duration_ms / 1000) ∧
    (∀ recs, get_indian_music_recommendations songs choice numRecs mp =
        some recs →
      ∀ r ∈ recs, ∃ s ∈ songs, r = mkSimpleRec s ∧
        r.duration = s.duration_ms / 1000) ∧
    (∀ recs, get_genre_recommendations songs choice genreQ numRecs =
        some recs →
      ∀ r ∈ recs, ∃ s ∈ songs, r = mkSimpleRec s ∧
        r.duration = s.duration_ms / 1000) := by
  refine ⟨?_, ?_, ?_, ?_, ?_⟩
  · intro recs inp hok
    unfold get_recommendations at hok
    cases hres : resolveSong songs (strTrim (strLower q)) with
    | inl sg =>
      simp only [hres] at hok
      exact absurd hok (by simp)
    | inr qIdx =>
      simp only [hres] at hok
      injection hok with hrecs hinp
      constructor
      · intro r hr
        rw [← hrecs] at hr
        obtain ⟨i, hik, hre⟩ := mem_recsFromIdx hr
        have hit := (mem_keptIndices hik).1
        have hilt := mem_topIndices hit
        rw [simScores_length] at hilt
        have hisongs : i < songs.length :=
          lt_of_lt_of_le hilt (le_trans (min_le_left _ _) (le_of_eq hLen))
        refine ⟨songs.getD i dfltSong, getD_mem hisongs dfltSong, ?_, ?_⟩
        · rw [hre]; rfl
        · rw [hre]; rfl
      · have hqlt : qIdx < songs.length := resolveSong_inr_lt hres
        refine ⟨songs.getD qIdx dfltSong, getD_mem hqlt dfltSong,
          hinp.symm, ?_⟩
        rw [← hinp]; rfl
  · intro recs hsome r hr
    unfold get_mood_based_recommendations at hsome
    cases hmf : moodFilter mood with
    | none => rw [hmf] at hsome; exact absurd hsome (by simp)
    | some p =>
      rw [hmf] at hsome
      simp only at hsome
      by_cases h0 : (songs.filter p).length = 0
      · rw [if_pos h0] at hsome
        exact absurd hsome (by simp)
      · rw [if_neg h0] at hsome
        injection hsome with hrec
        rw [← hrec] at hr
        obtain ⟨s, hs, hrs⟩ := sample_map_mem hch numRecs hr
        exact ⟨s, List.mem_of_mem_filter hs, hrs, by rw [hrs]; rfl⟩
  · intro r hr
    unfold get_random_songs randomSampleIdxs at hr
    obtain ⟨s, hs, hrs⟩ := sample_map_mem hch numSongs hr
    exact ⟨s, randomFiltered_subset songs mp genre s hs, hrs, by rw [hrs]; rfl⟩
  · intro recs hsome r hr
    unfold get_indian_music_recommendations at hsome
    by_cases h0 : (songs.filter isIndianRow).length = 0
    · rw [if_pos h0] at hsome
      exact absurd hsome (by simp)
    · rw [if_neg h0] at hsome
      simp only at hsome
      injection hsome with hrec
      rw [← hrec] at hr
      obtain ⟨s, hs, hrs⟩ := sample_map_mem hch numRecs hr
      exact ⟨s, indianFiltered_subset songs mp s hs, hrs, by rw [hrs]; rfl⟩
  · intro recs hsome r hr
    unfold get_genre_recommendations at hsome
    simp only at hsome
    by_cases hm : (matchingGenres songs (strLower genreQ)).isEmpty = true
    · rw [if_pos hm] at hsome
      exact absurd hsome (by simp)
    · rw [if_neg hm] at hsome
      by_cases h0 : (songs.filter
          (fun s => (matchingGenres songs (strLower genreQ)).contains
            s.playlist_genre)).length = 0
      · rw [if_pos h0] at hsome
        exact absurd hsome (by simp)
      · rw [if_neg h0] at hsome
        injection hsome with hrec
        rw [← hrec] at hr
        obtain ⟨s, hs, hrs⟩ := sample_map_mem hch numRecs hr
        exact ⟨s, List.mem_of_mem_filter hs, hrs, by rw [hrs]; rfl⟩

/-- C10 witness: the random-sampling conjunct applied at a concrete
catalog member (whose stored duration is 215000 ms, reported as 215 s). -/
theorem C10_witness :
    ∃ s ∈ demoSongs, mkSimpleRec demoA = mkSimpleRec s ∧
      (mkSimpleRec demoA).duration = s.duration_ms / 1000 :=
  (C10_theorem demoSongs [[1,0],[1,0],[0,1]] [1,1,1] sampleByOrder
      sampleByOrder_valid rfl "a" "happy" "pop" 1 0 1 5 none).2.2.1
    (mkSimpleRec demoA) (by with_unfolding_all decide)

end MusicRec
